import Mathlib

/-!
# Verification of the content-pull and setup-verification scripts

A shallow embedding, over `List Char` strings, of the decision logic of
`scripts/pull_content.py` and `scripts/verify_setup.py`:

* glob matching (`globMatch` models Python `fnmatch.fnmatch` on POSIX for
  patterns built from `*`, `?` and literal characters; the spec's glob
  grammar has no character classes, so `[` is treated as a literal),
* `should_exclude_file`, `is_yaml_file`, `write_yaml_markdown`,
  `match_file_to_pattern`,
* the file-enumeration and copy logic of `copy_files_by_pattern`,
  `copy_changed_files` and `copy_files`, over an abstract source tree
  given as a list of (relative path, decoded text content) pairs
  (paths are taken relative to the repository root, which models the
  `source_repo_path` prefix; byte-level decoding is abstracted away),
* the per-repository copy accounting and the final YAML cleanup pass of
  `main` in `pull_content.py`,
* `determine_repos_to_pull`, and the check aggregation of `main` in
  `verify_setup.py`.
-/

set_option autoImplicit false

/-- Strings are modelled as lists of characters so that every operation is
structurally recursive and kernel-evaluable. -/
abbrev Chars := List Char

/-- Coerce a Lean string literal to the `List Char` representation. -/
def strOf (s : String) : Chars := s.data

/-- `str.replace("\\", "/")` — path-separator normalisation used by
`match_file_to_pattern` and `copy_changed_files`. -/
def normSlash (s : Chars) : Chars :=
  s.map (fun c => if c = '\\' then '/' else c)

/-- `str.rstrip("/")`. -/
def rstripSlash (s : Chars) : Chars :=
  (s.reverse.dropWhile (fun c => c == '/')).reverse

/-- `str.lstrip("/")`. -/
def lstripSlash (s : Chars) : Chars :=
  s.dropWhile (fun c => c == '/')

/-- `str.endswith("/")`. -/
def endsWithSlash (s : Chars) : Bool :=
  s.getLast? == some '/'

/-- `pathlib.PurePath.name`: the final path component (text after the last
forward slash). -/
def pathName (p : Chars) : Chars :=
  (p.reverse.takeWhile (fun c => c != '/')).reverse

/-- The directory part of a path: everything before the last slash, `[]` for
a bare filename (models `PurePath.parent` relative to the repository root). -/
def pathParent (p : Chars) : Chars :=
  ((p.reverse.dropWhile (fun c => c != '/')).drop 1).reverse

/-- `pathlib.PurePath.suffix`: the extension of the final component, from its
last dot, empty when the dot is leading or trailing or absent. -/
def pathSuffix (p : Chars) : Chars :=
  let n := pathName p
  let afterRev := n.reverse.takeWhile (fun c => c != '.')
  match n.reverse.drop afterRev.length with
  | '.' :: pre => if pre.isEmpty || afterRev.isEmpty then [] else '.' :: afterRev.reverse
  | _ => []

/-- `str.lower()` restricted to the character-wise lowering Lean provides
(identical to Python on ASCII, which is all the repository compares). -/
def toLowerL (s : Chars) : Chars := s.map Char.toLower

/-- `str.strip()`: drop leading and trailing whitespace. -/
def trimWs (s : Chars) : Chars :=
  ((s.dropWhile Char.isWhitespace).reverse.dropWhile Char.isWhitespace).reverse

/-- Split a string on every occurrence of a separator character, keeping
empty pieces (Python `str.split(sep)` for a one-character separator). -/
def splitOnChar (sep : Char) : Chars → List Chars
  | [] => [[]]
  | c :: rest =>
    if c == sep then [] :: splitOnChar sep rest
    else
      match splitOnChar sep rest with
      | [] => [[c]]
      | s :: ss => (c :: s) :: ss

/-- Path components of a slash-separated path. -/
def splitOnSlash (p : Chars) : List Chars := splitOnChar '/' p

/-- `sub in s` for strings (Python substring test). -/
def containsSub (sub : Chars) : Chars → Bool
  | [] => sub.isEmpty
  | c :: rest => List.isPrefixOf sub (c :: rest) || containsSub sub rest

/-- The wildcard test of `match_file_to_pattern` line 238:
`"*" in source_pattern or "?" in source_pattern`. -/
def hasWildcard (s : Chars) : Bool :=
  s.any (fun c => c == '*' || c == '?')

/-- Python `source_pattern.split("**")`. -/
def splitOn2Star : Chars → List Chars
  | [] => [[]]
  | '*' :: '*' :: rest => [] :: splitOn2Star rest
  | c :: rest =>
    match splitOn2Star rest with
    | [] => [[c]]
    | s :: ss => (c :: s) :: ss

/-- Python `source_pattern.partition("**")`, projected to the pair
(text before the first `**`, text after it); when `**` is absent the whole
string is the first component, as in Python. -/
def partition2Star : Chars → Chars × Chars
  | [] => ([], [])
  | '*' :: '*' :: rest => ([], rest)
  | c :: rest => ((partition2Star rest).1.cons c, (partition2Star rest).2)

/-- Python `source_pattern.replace("**", "*")`. -/
def replaceStarStar : Chars → Chars
  | [] => []
  | '*' :: '*' :: rest => '*' :: replaceStarStar rest
  | c :: rest => c :: replaceStarStar rest

/-- `fnmatch.fnmatch(s, pat)` on a case-sensitive platform, for patterns
without character classes (the spec's glob grammar): `*` matches any
character sequence — including path separators — `?` matches exactly one
character, everything else is literal, and the pattern must cover the whole
string.  A `*` is resolved by trying the rest of the pattern on every
suffix of the candidate, which keeps the recursion structural in the
pattern. -/
def globMatch : Chars → Chars → Bool
  | [], s => s.isEmpty
  | '*' :: p, s => s.tails.any (fun t => globMatch p t)
  | _ :: _, [] => false
  | c :: p, d :: s => (c == '?' || c == d) && globMatch p s

/-- `should_exclude_file` (pull_content.py lines 175-186): a file is
excluded when any exclusion pattern matches its final component or its full
path string. -/
def should_exclude_file (filePath : Chars) (excludePatterns : List Chars) : Bool :=
  excludePatterns.any (fun pat => globMatch pat (pathName filePath) || globMatch pat filePath)

/-- `is_yaml_file` (lines 189-192): the lower-cased suffix is `.yml` or
`.yaml`. -/
def is_yaml_file (filePath : Chars) : Bool :=
  let s := toLowerL (pathSuffix filePath)
  s == strOf ".yml" || s == strOf ".yaml"

/-- The Markdown text produced by `write_yaml_markdown` (lines 195-217):
a title line naming the file, a citation of the repository-relative source
path, and the decoded YAML text inside a fenced `yaml` code block. -/
def write_yaml_markdown (title relativeSource yamlContent : Chars) : Chars :=
  strOf "# " ++ title ++ strOf "\n\nSource: `" ++ relativeSource ++
    strOf "`\n\n```yaml\n" ++ yamlContent ++ strOf "\n```\n"

/-- `match_file_to_pattern` (lines 220-272).  The exclusion check runs on
the candidate as supplied (callers pass `pathlib` paths); the glob branches
run on the backslash-normalised path string. -/
def match_file_to_pattern (filePath sourcePattern : Chars) (excludePatterns : List Chars) : Bool :=
  if should_exclude_file filePath excludePatterns then false
  else if hasWildcard (normSlash sourcePattern) then
    if containsSub (strOf "**") (normSlash sourcePattern) then
      match splitOn2Star (normSlash sourcePattern) with
      | [p0, s1] =>
        if (rstripSlash p0).isEmpty then
          globMatch ('*' :: lstripSlash s1) (normSlash filePath) ||
            globMatch (lstripSlash s1) (pathName filePath)
        else if List.isPrefixOf (rstripSlash p0) (normSlash filePath) then
          globMatch (lstripSlash s1)
              (lstripSlash ((normSlash filePath).drop (rstripSlash p0).length)) ||
            globMatch ('*' :: '/' :: lstripSlash s1)
              (lstripSlash ((normSlash filePath).drop (rstripSlash p0).length)) ||
            globMatch ('*' :: '*' :: '/' :: lstripSlash s1)
              (lstripSlash ((normSlash filePath).drop (rstripSlash p0).length))
        else false
      | _ => globMatch (replaceStarStar (normSlash sourcePattern)) (normSlash filePath)
    else globMatch (normSlash sourcePattern) (normSlash filePath)
  else
    (normSlash filePath == normSlash sourcePattern) ||
      (pathName (normSlash filePath) == normSlash sourcePattern) ||
      (endsWithSlash (normSlash sourcePattern) &&
        List.isPrefixOf (rstripSlash (normSlash sourcePattern)) (normSlash filePath))

/-- One entry of a `*_patterns` configuration list (spec §3 Pattern Rule):
`pattern_config.get("source")`, `pattern_config.get("destination", "")`,
`pattern_config.get("recursive", False)`. -/
structure PatternConfig where
  source : Chars
  destination : Chars := []
  recursive : Bool := false
deriving DecidableEq, Repr

/-- A source tree: the files below the repository root, as
(relative path, decoded text content) pairs. -/
abbrev SourceTree := List (Chars × Chars)

/-- `pathlib` glob semantics, per path component: each pattern component is
matched by `fnmatch` against the corresponding path component, and a `**`
component matches any number (including zero) of leading components. -/
def segGlobList : List Chars → List Chars → Bool
  | [], segs => segs.isEmpty
  | p :: ps, segs =>
    if p == strOf "**" then segs.tails.any (fun t => segGlobList ps t)
    else
      match segs with
      | [] => false
      | s :: rest => globMatch p s && segGlobList ps rest

/-- Whether a file path lies strictly below a directory (the repository root
is the empty path). -/
def underDir (base f : Chars) : Bool :=
  base.isEmpty || List.isPrefixOf (base ++ ['/']) f

/-- The path of a file relative to a directory it lies under. -/
def relTo (base f : Chars) : Chars :=
  if base.isEmpty then f else f.drop (base.length + 1)

/-- A file selected by `parent_dir.glob(...)` / `parent_dir.rglob(...)`:
it lies under the directory and its relative components match the pattern
components. -/
def globSelect (base : Chars) (patSegs : List Chars) (f : Chars) : Bool :=
  underDir base f && segGlobList patSegs (splitOnSlash (relTo base f))

/-- `Path.exists()` for a directory in the abstract tree: the root always
exists; any other directory exists when some file lies under it. -/
def dirExists (fs : SourceTree) (d : Chars) : Bool :=
  d.isEmpty || fs.any (fun e => List.isPrefixOf (d ++ ['/']) e.1)

/-- `Path.is_dir()` for `source_repo_path / p` (trailing separators are
normalised away by `pathlib`): some file lies strictly below `p`. -/
def dirIn (fs : SourceTree) (p : Chars) : Bool :=
  fs.any (fun e => List.isPrefixOf (rstripSlash p ++ ['/']) e.1)

/-- `Path.is_file()` for `source_repo_path / p`. -/
def isFile (fs : SourceTree) (p : Chars) : Bool :=
  fs.any (fun e => e.1 == rstripSlash p)

/-- The text content stored for a path. -/
def lookupContent (fs : SourceTree) (p : Chars) : Chars :=
  ((fs.find? (fun e => e.1 == p)).map Prod.snd).getD []

/-- One destination write performed by a copy pass: source path,
destination path below `docs/`, and the bytes written there. -/
structure Write where
  src : Chars
  dest : Chars
  content : Chars
deriving DecidableEq, Repr

/-- `docs_path / a / b` relative to `docs/` (`pathlib` join, which drops a
trailing separator of `a` and ignores an empty `a`). -/
def joinPath (a b : Chars) : Chars :=
  if a.isEmpty then b else rstripSlash a ++ '/' :: b

/-- The copy step shared by both copy passes (lines 337-347 and 438-448):
a YAML source is rendered through `write_yaml_markdown` to the destination
with `.md` appended (`dest_file.with_suffix(dest_file.suffix + ".md")`);
any other file is copied verbatim. -/
def mkWrite (e : Chars × Chars) (dest : Chars) : Write :=
  if is_yaml_file e.1 then
    ⟨e.1, dest ++ strOf ".md", write_yaml_markdown (pathName e.1) e.1 e.2⟩
  else ⟨e.1, dest, e.2⟩

/-- The files one pattern rule selects in `copy_files_by_pattern`
(lines 365-416).  A `**` rule searches with `rglob` below the prefix
directory; a plain glob searches its parent directory, recursively only
when the `recursive` flag is set; a wildcard-free rule names a single file
or a whole directory (`rglob("*")` below it).  When the searched directory
does not exist the rule selects nothing (the source prints a warning and
`continue`s; in the wildcard-free case the source leaves the previous
loop value in `matching_files`, modelled here as selecting nothing). -/
def ruleMatches (fs : SourceTree) (pc : PatternConfig) (excludePatterns : List Chars) :
    List (Chars × Chars) :=
  let sp := pc.source
  if hasWildcard sp then
    if containsSub (strOf "**") sp then
      let baseDir := rstripSlash (partition2Star sp).1
      let pn0 := lstripSlash (partition2Star sp).2
      let patternName := if pn0.isEmpty then strOf "*" else pn0
      if dirExists fs baseDir then
        fs.filter (fun e =>
          globSelect baseDir (strOf "**" :: splitOnSlash patternName) e.1 &&
            !(should_exclude_file e.1 excludePatterns))
      else []
    else
      let parent := pathParent sp
      let patternName := pathName sp
      if dirExists fs parent then
        if pc.recursive then
          fs.filter (fun e =>
            globSelect parent (strOf "**" :: [patternName]) e.1 &&
              !(should_exclude_file e.1 excludePatterns))
        else
          fs.filter (fun e =>
            globSelect parent [patternName] e.1 &&
              !(should_exclude_file e.1 excludePatterns))
      else []
  else
    if isFile fs sp then
      fs.filter (fun e =>
        e.1 == rstripSlash sp && !(should_exclude_file e.1 excludePatterns))
    else if dirIn fs sp then
      fs.filter (fun e =>
        List.isPrefixOf (rstripSlash sp ++ ['/']) e.1 &&
          !(should_exclude_file e.1 excludePatterns))
    else []

/-- Destination computation of `copy_files_by_pattern` (lines 422-433):
a destination ending in a separator (or empty) is a directory; the full
relative path is preserved under it only when the rule's source ends in a
separator or names a directory, otherwise only the file's base name is
used; any other destination is an exact target file path. -/
def destFor (fs : SourceTree) (pc : PatternConfig) (f : Chars) : Chars :=
  if endsWithSlash pc.destination || pc.destination.isEmpty then
    if endsWithSlash pc.source || dirIn fs pc.source then joinPath pc.destination f
    else joinPath pc.destination (pathName f)
  else pc.destination

/-- All destination writes of `copy_files_by_pattern` (lines 358-455),
in rule order then tree order. -/
def copyPatternWrites (fs : SourceTree) (patterns : List PatternConfig)
    (excludePatterns : List Chars) : List Write :=
  (patterns.map (fun pc =>
    (ruleMatches fs pc excludePatterns).map (fun e => mkWrite e (destFor fs pc e.1)))).flatten

/-- The count `copy_files_by_pattern` returns (every modelled write
succeeds, so the count is the number of writes). -/
def copy_files_by_pattern (fs : SourceTree) (patterns : List PatternConfig)
    (excludePatterns : List Chars) : Nat :=
  (copyPatternWrites fs patterns excludePatterns).length

/-- The comma-separated changed-file manifest, parsed as in
`copy_changed_files` line 285: split on commas, strip whitespace, drop
empties. -/
def parseChanged (changedFilesList : Chars) : List Chars :=
  ((splitOnChar ',' changedFilesList).map trimWs).filter (fun f => !f.isEmpty)

/-- The (path, destination base) pairs `copy_changed_files` matches
(lines 297-322): each surviving manifest entry is normalised, skipped when
absent from the tree, and paired with the first rule it matches. -/
def changedMatched (fs : SourceTree) (changedFilesList : Chars)
    (patterns : List PatternConfig) (excludePatterns : List Chars) : List (Chars × Chars) :=
  (parseChanged changedFilesList).filterMap (fun cf =>
    let cfn := normSlash cf
    if isFile fs cfn then
      match patterns.find? (fun pc => match_file_to_pattern cfn pc.source excludePatterns) with
      | some pc => some (cfn, pc.destination)
      | none => none
    else none)

/-- All destination writes of `copy_changed_files` (lines 324-349): a
directory destination preserves the manifest path below it, an exact
destination is used as-is, and YAML files are rendered, not copied. -/
def copyChangedWrites (fs : SourceTree) (changedFilesList : Chars)
    (patterns : List PatternConfig) (excludePatterns : List Chars) : List Write :=
  (changedMatched fs changedFilesList patterns excludePatterns).map (fun m =>
    let dest := if endsWithSlash m.2 || m.2.isEmpty then joinPath m.2 m.1 else m.2
    mkWrite (m.1, lookupContent fs m.1) dest)

/-- The count `copy_changed_files` returns. -/
def copy_changed_files (fs : SourceTree) (changedFilesList : Chars)
    (patterns : List PatternConfig) (excludePatterns : List Chars) : Nat :=
  (copyChangedWrites fs changedFilesList patterns excludePatterns).length

/-- The writes of the static-mapping pass `copy_files` (lines 458-479):
each mapped source that exists is copied verbatim — no YAML transform on
this path. -/
def copyStaticWrites (fs : SourceTree) (fileMapping : List (Chars × Chars)) : List Write :=
  fileMapping.filterMap (fun m =>
    if isFile fs m.1 then some ⟨m.1, m.2, lookupContent fs m.1⟩ else none)

/-- The count `copy_files` returns. -/
def copy_files (fs : SourceTree) (fileMapping : List (Chars × Chars)) : Nat :=
  (copyStaticWrites fs fileMapping).length

/-- The per-repository copy accounting of `main` (lines 572-609 and
633-669): when a changed-file manifest is present and pattern rules are
configured, the changed-file pass runs first; whenever it contributed
nothing, the static-mapping pass and the full pattern pass run as a
fallback, and every pass adds its count to the repository total. -/
def mainRepoCopiedTotal (fs : SourceTree) (staticPaths : List (Chars × Chars))
    (patterns : List PatternConfig) (excludePatterns : List Chars)
    (changed : Option Chars) : Nat :=
  let c :=
    match changed with
    | some cl =>
      if patterns.isEmpty then 0 else copy_changed_files fs cl patterns excludePatterns
    | none => 0
  if c = 0 then c + copy_files fs staticPaths + copy_files_by_pattern fs patterns excludePatterns
  else c

/-- The final cleanup pass of `main` (lines 692-704): every file under the
destination `docs/` tree whose lower-cased suffix is `.yml` or `.yaml` is
deleted, whatever produced it. -/
def mainCleanupDocs (docsFiles : List Chars) : List Chars :=
  docsFiles.filter (fun p => !(is_yaml_file p))

/-- `determine_repos_to_pull` (lines 482-517), as the pair
(pull messaging-core, pull virtual-golf-game-api) computed from the
`TRIGGER_REPOSITORY` environment value (absent modelled as the empty
string). -/
def determine_repos_to_pull (triggerRepository : Chars) : Bool × Bool :=
  let t := toLowerL triggerRepository
  if t.isEmpty then (true, true)
  else if containsSub (strOf "messaging-core") t || containsSub (strOf "messaging_core") t then
    (true, false)
  else if containsSub (strOf "virtual-golf-game-api") t ||
      containsSub (strOf "virtual_golf_game_api") t then
    (false, true)
  else (true, true)

/-- The outcomes of the eleven independent checks `verify_setup.main`
collects (lines 124-183), in source order: six required-file checks, the
JSON validity check, the two placeholder checks, the documentation
layout check, and the script syntax check.  Each check only reads the
environment, so it is abstracted as its boolean outcome. -/
structure VerifyEnv where
  mkdocsExists : Bool
  requirementsExists : Bool
  configExists : Bool
  pullScriptExists : Bool
  workflowExists : Bool
  gitignoreExists : Bool
  configJsonValid : Bool
  configPlaceholdersOk : Bool
  mkdocsPlaceholdersOk : Bool
  docsStructureOk : Bool
  pyCompileOk : Bool
deriving DecidableEq, Repr

/-- The `results` list `verify_setup.main` accumulates. -/
def verifyResults (e : VerifyEnv) : List Bool :=
  [e.mkdocsExists, e.requirementsExists, e.configExists, e.pullScriptExists,
   e.workflowExists, e.gitignoreExists, e.configJsonValid, e.configPlaceholdersOk,
   e.mkdocsPlaceholdersOk, e.docsStructureOk, e.pyCompileOk]

/-- `passed = sum(results)` of `verify_setup.main` (line 190). -/
def verifyPassed (e : VerifyEnv) : Nat := (verifyResults e).count true

/-- The exit status of `verify_setup.main` (lines 195-210): `0` when
`passed == total`, `1` otherwise. -/
def verify_setup_main (e : VerifyEnv) : Nat :=
  if verifyPassed e = (verifyResults e).length then 0 else 1

/-- The spec's reading of a `prefix/**/suffix` rule (§4.1, §8), as amended:
the remainder of the candidate after the prefix satisfies the suffix glob
at some depth — either directly, or after discarding a leading portion that
ends at a path separator. -/
def matchesAtAnyDepth (suf rem : Chars) : Prop :=
  ∃ pre post, rem = pre ++ post ∧ (pre = [] ∨ ∃ q, pre = q ++ ['/']) ∧
    globMatch suf post = true

/-- `parent_dir / name` for a file directly under a directory (the
repository root is the empty path). -/
def joinParent (d name : Chars) : Chars :=
  if d.isEmpty then name else d ++ '/' :: name

/-! ## Helper lemmas -/

/-- An excluded candidate short-circuits `match_file_to_pattern` to
`false` (lines 233-235). -/
theorem match_file_to_pattern_excluded (f sp : Chars) (excl : List Chars)
    (hex : should_exclude_file f excl = true) :
    match_file_to_pattern f sp excl = false := by
  unfold match_file_to_pattern
  rw [hex]
  rfl

/-- Every file a rule selects in `copy_files_by_pattern` passed the
exclusion filter. -/
theorem ruleMatches_not_excluded (fs : SourceTree) (pc : PatternConfig)
    (excl : List Chars) (e : Chars × Chars) (h : e ∈ ruleMatches fs pc excl) :
    should_exclude_file e.1 excl = false := by
  unfold ruleMatches at h
  dsimp only at h
  repeat' split at h
  all_goals
    first
      | exact absurd h (List.not_mem_nil _)
      | · rw [List.mem_filter] at h
          have h2 := h.2
          simp only [Bool.and_eq_true, Bool.not_eq_true'] at h2
          exact h2.2

/-- Every file a rule selects in `copy_files_by_pattern` is a file of the
source tree. -/
theorem ruleMatches_mem_fs (fs : SourceTree) (pc : PatternConfig)
    (excl : List Chars) (e : Chars × Chars) (h : e ∈ ruleMatches fs pc excl) :
    e ∈ fs := by
  unfold ruleMatches at h
  dsimp only at h
  repeat' split at h
  all_goals
    first
      | exact absurd h (List.not_mem_nil _)
      | exact (List.mem_filter.mp h).1

/-- Both branches of the copy step write from the matched source path. -/
theorem mkWrite_src (e : Chars × Chars) (d : Chars) : (mkWrite e d).src = e.1 := by
  unfold mkWrite
  split <;> rfl

/-- Every pair `copy_changed_files` matches comes with a rule whose
pattern the (normalised) path satisfies. -/
theorem changedMatched_spec (fs : SourceTree) (cl : Chars)
    (patterns : List PatternConfig) (excl : List Chars) (m : Chars × Chars)
    (h : m ∈ changedMatched fs cl patterns excl) :
    ∃ pc : PatternConfig,
      match_file_to_pattern m.1 pc.source excl = true ∧ m.2 = pc.destination := by
  unfold changedMatched at h
  rw [List.mem_filterMap] at h
  obtain ⟨cf, -, hcf⟩ := h
  dsimp only at hcf
  by_cases hf : isFile fs (normSlash cf) = true
  · rw [if_pos hf] at hcf
    cases hfind : patterns.find?
        (fun pc => match_file_to_pattern (normSlash cf) pc.source excl) with
    | none => rw [hfind] at hcf; cases hcf
    | some pc =>
      rw [hfind] at hcf
      injection hcf with hm
      have hmatch : match_file_to_pattern (normSlash cf) pc.source excl = true := by
        simpa using List.find?_some hfind
      subst hm
      exact ⟨pc, hmatch, rfl⟩
  · rw [if_neg hf] at hcf; cases hcf

/-- A leading `*` matches an arbitrary split of the candidate. -/
theorem globMatch_star_iff (q s : Chars) :
    globMatch ('*' :: q) s = true ↔ ∃ a b, s = a ++ b ∧ globMatch q b = true := by
  simp only [globMatch, List.any_eq_true]
  constructor
  · rintro ⟨t, ht, hq⟩
    obtain ⟨a, ha⟩ := (List.mem_tails _ _).mp ht
    exact ⟨a, t, ha.symm, hq⟩
  · rintro ⟨a, b, rfl, hq⟩
    exact ⟨b, (List.mem_tails _ _).mpr ⟨a, rfl⟩, hq⟩

/-- A leading literal `/` consumes exactly one `/`. -/
theorem globMatch_cons_slash (q s : Chars) :
    globMatch ('/' :: q) s = true ↔ ∃ b, s = '/' :: b ∧ globMatch q b = true := by
  cases s with
  | nil => simp [globMatch]
  | cons d s' =>
    simp only [globMatch, Bool.and_eq_true, Bool.or_eq_true]
    constructor
    · rintro ⟨hc | hc, hq⟩
      · exact absurd hc (by decide)
      · refine ⟨s', ?_, hq⟩
        rw [eq_of_beq hc]
    · rintro ⟨b, heq, hq⟩
      injection heq with h1 h2
      subst h1
      subst h2
      exact ⟨Or.inr (by decide), hq⟩

/-- Two consecutive `*`s match the same candidates as one. -/
theorem globMatch_starstar (q s : Chars) :
    globMatch ('*' :: '*' :: q) s = true ↔ globMatch ('*' :: q) s = true := by
  rw [globMatch_star_iff, globMatch_star_iff]
  constructor
  · rintro ⟨a, b, rfl, hb⟩
    obtain ⟨c, d, rfl, hd⟩ := (globMatch_star_iff q b).mp hb
    exact ⟨a ++ c, d, (List.append_assoc a c d).symm, hd⟩
  · rintro ⟨a, b, rfl, hb⟩
    exact ⟨[], a ++ b, rfl, (globMatch_star_iff q (a ++ b)).mpr ⟨a, b, rfl, hb⟩⟩

/-- `*/suffix` matches exactly the candidates that have a `/` with the
suffix glob matching what follows it. -/
theorem globMatch_starSlash (q s : Chars) :
    globMatch ('*' :: '/' :: q) s = true ↔
      ∃ a b, s = a ++ '/' :: b ∧ globMatch q b = true := by
  rw [globMatch_star_iff]
  constructor
  · rintro ⟨a, b, rfl, hb⟩
    obtain ⟨c, rfl, hc⟩ := (globMatch_cons_slash q b).mp hb
    exact ⟨a, c, rfl, hc⟩
  · rintro ⟨a, b, rfl, hb⟩
    exact ⟨a, '/' :: b, rfl, (globMatch_cons_slash q ('/' :: b)).mpr ⟨b, rfl, hb⟩⟩

/-- The three-glob disjunction of `match_file_to_pattern`'s `**` branch is
exactly the spec's any-depth suffix match. -/
theorem glob_anyDepth (suf rem : Chars) :
    (globMatch suf rem || globMatch ('*' :: '/' :: suf) rem ||
      globMatch ('*' :: '*' :: '/' :: suf) rem) = true ↔
    matchesAtAnyDepth suf rem := by
  simp only [Bool.or_eq_true]
  constructor
  · rintro ((h | h) | h)
    · exact ⟨[], rem, rfl, Or.inl rfl, h⟩
    · obtain ⟨a, b, rfl, hb⟩ := (globMatch_starSlash suf rem).mp h
      exact ⟨a ++ ['/'], b, (List.append_assoc a ['/'] b).symm, Or.inr ⟨a, rfl⟩, hb⟩
    · obtain ⟨a, b, rfl, hb⟩ :=
        (globMatch_starSlash suf rem).mp ((globMatch_starstar ('/' :: suf) rem).mp h)
      exact ⟨a ++ ['/'], b, (List.append_assoc a ['/'] b).symm, Or.inr ⟨a, rfl⟩, hb⟩
  · rintro ⟨pre, post, rfl, hpre | ⟨q, rfl⟩, hpost⟩
    · subst hpre
      exact Or.inl (Or.inl hpost)
    · refine Or.inl (Or.inr ?_)
      exact (globMatch_starSlash suf _).mpr
        ⟨q, post, List.append_assoc q ['/'] post, hpost⟩

/-! ## Claim theorems -/

/-- C2 (amended): for a rule of the form `prefix ** suffix` with a
non-empty prefix (after stripping its trailing slashes) and no exclusions,
`match_file_to_pattern` accepts a candidate iff the candidate starts with
the stripped prefix — with no path separator required at the boundary —
and the remainder (after dropping the prefix and leading slashes)
satisfies the suffix glob at some depth, the glob's wildcards also
crossing path separators. -/
theorem c2_two_star_match_characterization (sp f p0 s1 pre suf : Chars)
    (hnf : normSlash f = f) (hnsp : normSlash sp = sp)
    (hw : hasWildcard sp = true)
    (hss : containsSub (strOf "**") sp = true)
    (hsplit : splitOn2Star sp = [p0, s1])
    (hpre : rstripSlash p0 = pre) (hsuf : lstripSlash s1 = suf)
    (hpne : pre ≠ []) :
    match_file_to_pattern f sp [] = true ↔
      (List.isPrefixOf pre f = true ∧
        matchesAtAnyDepth suf (lstripSlash (f.drop pre.length))) := by
  have hpe : pre.isEmpty = false := by
    cases pre with
    | nil => exact absurd rfl hpne
    | cons a l => rfl
  have hex : should_exclude_file f [] = false := rfl
  unfold match_file_to_pattern
  rw [hnf, hnsp, hex, hw, hss, hsplit]
  simp only [Bool.false_eq_true, if_false, if_true, hpre, hsuf, hpe]
  by_cases hpf : List.isPrefixOf pre f = true
  · simp only [hpf, if_true, true_and]
    exact glob_anyDepth suf (lstripSlash (f.drop pre.length))
  · simp only [hpf, if_false, false_and, iff_false]
    simp only [Bool.not_eq_true] at hpf
    simp [hpf]

/-- C2 counterexample: `docsx/a.md` does not start with `docs/`, yet the
`docs/**/*.md` rule matches it, because the code strips the trailing slash
from the prefix before the `startswith` test. -/
theorem c2_prefix_boundary_cex :
    match_file_to_pattern (strOf "docsx/a.md") (strOf "docs/**/*.md") [] = true ∧
    List.isPrefixOf (strOf "docs/") (strOf "docsx/a.md") = false := by
  decide

/-- C2 witness: the characterization instantiated at the spec's example
rule and candidate. -/
theorem c2_two_star_match_witness :
    match_file_to_pattern (strOf "docs/a/b.md") (strOf "docs/**/*.md") [] = true ↔
      (List.isPrefixOf (strOf "docs") (strOf "docs/a/b.md") = true ∧
        matchesAtAnyDepth (strOf "*.md")
          (lstripSlash ((strOf "docs/a/b.md").drop (strOf "docs").length))) :=
  c2_two_star_match_characterization (strOf "docs/**/*.md") (strOf "docs/a/b.md")
    (strOf "docs/") (strOf "/*.md") (strOf "docs") (strOf "*.md")
    (by decide) (by decide) (by decide) (by decide) (by decide) (by decide)
    (by decide) (by decide)

/-- C8 (amended): with no exclusions, a wildcard-free rule matches exactly
a candidate equal to the pattern as a full path, one whose final component
equals the pattern, or — when the pattern ends in a path separator — one
whose path starts with the pattern stripped of its trailing slashes. -/
theorem c8_exact_match_characterization (f sp : Chars)
    (hnf : normSlash f = f) (hnsp : normSlash sp = sp)
    (hw : hasWildcard sp = false) :
    match_file_to_pattern f sp [] = true ↔
      (f = sp ∨ pathName f = sp ∨
        (endsWithSlash sp = true ∧ List.isPrefixOf (rstripSlash sp) f = true)) := by
  have hex : should_exclude_file f [] = false := rfl
  unfold match_file_to_pattern
  rw [hnf, hnsp, hex, hw]
  simp only [Bool.false_eq_true, if_false, Bool.or_eq_true, Bool.and_eq_true, beq_iff_eq]
  exact or_assoc

/-- C8 counterexample: the wildcard-free pattern `docs/` matches
`docs/a.md`, which equals neither the pattern nor its final component:
the directory-pattern disjunct accepts any candidate under the named
directory. -/
theorem c8_dir_pattern_cex :
    match_file_to_pattern (strOf "docs/a.md") (strOf "docs/") [] = true ∧
    strOf "docs/a.md" ≠ strOf "docs/" ∧
    pathName (strOf "docs/a.md") ≠ strOf "docs/" := by
  decide

/-- C8 witness: the characterization instantiated at a filename-equality
match. -/
theorem c8_exact_match_witness :
    match_file_to_pattern (strOf "docs/README.md") (strOf "README.md") [] = true ↔
      (strOf "docs/README.md" = strOf "README.md" ∨
        pathName (strOf "docs/README.md") = strOf "README.md" ∨
        (endsWithSlash (strOf "README.md") = true ∧
          List.isPrefixOf (rstripSlash (strOf "README.md")) (strOf "docs/README.md") = true)) :=
  c8_exact_match_characterization (strOf "docs/README.md") (strOf "README.md")
    (by decide) (by decide) (by decide)

/-- C3: a candidate matching any exclusion pattern is rejected by
`match_file_to_pattern` whatever the rule, is never selected by the
pattern-based enumeration, and is never written by the changed-file pass:
exclusions are checked first and short-circuit to a non-match. -/
theorem c3_exclusion_short_circuits (excl : List Chars) (f : Chars)
    (hex : should_exclude_file f excl = true) :
    (∀ sp, match_file_to_pattern f sp excl = false) ∧
    (∀ fs pc e, e ∈ ruleMatches fs pc excl → e.1 ≠ f) ∧
    (∀ fs cl patterns w, w ∈ copyChangedWrites fs cl patterns excl → w.src ≠ f) := by
  refine ⟨fun sp => match_file_to_pattern_excluded f sp excl hex, ?_, ?_⟩
  · intro fs pc e he heq
    have := ruleMatches_not_excluded fs pc excl e he
    rw [heq, hex] at this
    cases this
  · intro fs cl patterns w hw heq
    unfold copyChangedWrites at hw
    rw [List.mem_map] at hw
    obtain ⟨m, hm, hmk⟩ := hw
    obtain ⟨pc, hmatch, -⟩ := changedMatched_spec fs cl patterns excl m hm
    have hsrc : w.src = m.1 := by rw [← hmk, mkWrite_src]
    rw [hsrc] at heq
    rw [heq] at hmatch
    rw [match_file_to_pattern_excluded f pc.source excl hex] at hmatch
    cases hmatch

/-- C3 witness: with exclusion list `["*.log"]` the excluded file `a.log`
does not match the catch-all rule `*`. -/
theorem c3_exclusion_witness :
    match_file_to_pattern (strOf "a.log") (strOf "*") [strOf "*.log"] = false :=
  (c3_exclusion_short_circuits [strOf "*.log"] (strOf "a.log") (by decide)).1 (strOf "*")

/-- C5: the final cleanup pass of `main` keeps exactly the files whose
(case-insensitive) suffix is not `.yml`/`.yaml`; every YAML-suffixed file
under the destination tree is deleted, whatever produced it. -/
theorem c5_cleanup_removes_yaml (docsFiles : List Chars) (p : Chars) :
    p ∈ mainCleanupDocs docsFiles ↔ p ∈ docsFiles ∧ is_yaml_file p = false := by
  unfold mainCleanupDocs
  rw [List.mem_filter, Bool.not_eq_true']

/-- C5 witness: after cleanup the rendered wrapper stays and the raw YAML
file is gone from a concrete destination tree. -/
theorem c5_cleanup_witness :
    strOf "guides/order.yaml.md" ∈
      mainCleanupDocs [strOf "guides/order.yaml.md", strOf "guides/order.YAML"] :=
  (c5_cleanup_removes_yaml _ _).mpr ⟨by decide, by decide⟩

/-- C6: when a changed-file manifest is supplied but the changed-file pass
copies nothing, `main` falls back to the static-mapping and full
pattern-based passes, and the repository total is the fallback's count; in
particular with no static mappings it is exactly the pattern pass count. -/
theorem c6_zero_changed_falls_back (fs : SourceTree)
    (staticPaths : List (Chars × Chars)) (patterns : List PatternConfig)
    (excl : List Chars) (cl : Chars) (hp : patterns ≠ [])
    (h0 : copy_changed_files fs cl patterns excl = 0) :
    mainRepoCopiedTotal fs staticPaths patterns excl (some cl) =
      copy_files fs staticPaths + copy_files_by_pattern fs patterns excl ∧
    mainRepoCopiedTotal fs [] patterns excl (some cl) =
      copy_files_by_pattern fs patterns excl := by
  have hpe : patterns.isEmpty = false := by
    cases patterns with
    | nil => exact absurd rfl hp
    | cons a l => rfl
  constructor <;>
    simp [mainRepoCopiedTotal, hpe, h0, copy_files, copyStaticWrites]

/-- C6 witness: a manifest naming only `src/main.c` matches no rule, and
the run total equals the full pattern pass count. -/
theorem c6_fallback_witness :
    mainRepoCopiedTotal [(strOf "docs/a.md", strOf "x")] []
        [⟨strOf "docs/**/*.md", strOf "guides/", false⟩] []
        (some (strOf "src/main.c")) =
      copy_files_by_pattern [(strOf "docs/a.md", strOf "x")]
        [⟨strOf "docs/**/*.md", strOf "guides/", false⟩] [] :=
  (c6_zero_changed_falls_back [(strOf "docs/a.md", strOf "x")] []
    [⟨strOf "docs/**/*.md", strOf "guides/", false⟩] [] (strOf "src/main.c")
    (by decide) (by decide)).2

/-- C9: the setup verifier's `main` exits with `0` iff every collected
check passed and with `1` otherwise, and the aggregate — the count of
passed checks against the total — is insensitive to the order of the
checks. -/
theorem c9_verifier_exit_status (e : VerifyEnv) :
    (verify_setup_main e = 0 ↔ ∀ r ∈ verifyResults e, r = true) ∧
    (verify_setup_main e = 0 ∨ verify_setup_main e = 1) ∧
    (∀ l : List Bool, l.Perm (verifyResults e) →
      (if l.count true = l.length then 0 else 1) = verify_setup_main e) := by
  refine ⟨?_, ?_, ?_⟩
  · unfold verify_setup_main verifyPassed
    split
    next hc =>
      simp only [true_iff, eq_self_iff_true]
      intro r hr
      exact (List.count_eq_length.mp hc r hr).symm
    next hc =>
      constructor
      · intro h; cases h
      · intro hall
        exact absurd (List.count_eq_length.mpr fun b hb => (hall b hb).symm) hc
  · unfold verify_setup_main
    split
    · exact Or.inl rfl
    · exact Or.inr rfl
  · intro l hl
    unfold verify_setup_main verifyPassed
    rw [hl.count_eq, hl.length_eq]

/-- C9 witness: with all eleven checks passing the exit status is 0. -/
theorem c9_verifier_witness :
    verify_setup_main ⟨true, true, true, true, true, true, true, true, true, true, true⟩ = 0 :=
  (c9_verifier_exit_status _).1.mpr (by decide)

/-- C10: `determine_repos_to_pull` always selects at least one repository,
and an empty or unrecognised trigger value selects both. -/
theorem c10_repo_selection_total (t : Chars) :
    ((determine_repos_to_pull t).1 = true ∨ (determine_repos_to_pull t).2 = true) ∧
    (t = [] → determine_repos_to_pull t = (true, true)) ∧
    ((containsSub (strOf "messaging-core") (toLowerL t) = false ∧
      containsSub (strOf "messaging_core") (toLowerL t) = false ∧
      containsSub (strOf "virtual-golf-game-api") (toLowerL t) = false ∧
      containsSub (strOf "virtual_golf_game_api") (toLowerL t) = false) →
        determine_repos_to_pull t = (true, true)) := by
  refine ⟨?_, ?_, ?_⟩
  · unfold determine_repos_to_pull
    dsimp only
    split
    · exact Or.inl rfl
    · split
      · exact Or.inl rfl
      · split
        · exact Or.inr rfl
        · exact Or.inl rfl
  · intro ht
    subst ht
    rfl
  · rintro ⟨h1, h2, h3, h4⟩
    unfold determine_repos_to_pull
    simp [h1, h2, h3, h4]

/-- C10 witness: the empty trigger selects both repositories. -/
theorem c10_repo_selection_witness : determine_repos_to_pull [] = (true, true) :=
  (c10_repo_selection_total []).2.1 rfl


/-- A path is its directory text followed by its final component. -/
theorem pathName_decomp (p : Chars) :
    p = (p.reverse.dropWhile (fun c => c != '/')).reverse ++ pathName p := by
  unfold pathName
  rw [← List.reverse_append, List.takeWhile_append_dropWhile, List.reverse_reverse]

/-- Substring containment is preserved by prepending text. -/
theorem containsSub_append_right (sub l1 l2 : Chars) (h : containsSub sub l2 = true) :
    containsSub sub (l1 ++ l2) = true := by
  induction l1 with
  | nil => exact h
  | cons c cs ih =>
    rw [List.cons_append]
    unfold containsSub
    rw [Bool.or_eq_true]
    exact Or.inr ih

/-- A pattern without `**` cannot have `**` as its final component. -/
theorem pathName_ne_twostar (sp : Chars) (hss : containsSub (strOf "**") sp = false) :
    (pathName sp == strOf "**") = false := by
  cases hb : pathName sp == strOf "**" with
  | false => rfl
  | true =>
    exfalso
    have hps := eq_of_beq hb
    have hd := pathName_decomp sp
    rw [hps] at hd
    have hc : containsSub (strOf "**") sp = true := by
      rw [hd]
      exact containsSub_append_right _ _ _ (by decide)
    rw [hc] at hss
    cases hss

/-- Splitting always yields at least one piece. -/
theorem splitOnChar_ne_nil (sep : Char) (l : Chars) : splitOnChar sep l ≠ [] := by
  cases l with
  | nil => simp [splitOnChar]
  | cons c rest =>
    unfold splitOnChar
    by_cases hc : (c == sep) = true
    · rw [if_pos hc]
      exact List.cons_ne_nil _ _
    · rw [if_neg hc]
      cases h : splitOnChar sep rest with
      | nil => exact List.cons_ne_nil _ _
      | cons s ss => exact List.cons_ne_nil _ _

/-- A split yields a single piece exactly for separator-free strings. -/
theorem splitOnChar_single_iff (sep : Char) (f s : Chars) :
    splitOnChar sep f = [s] ↔ f = s ∧ f.all (fun c => c != sep) = true := by
  constructor
  · induction f generalizing s with
    | nil =>
      intro h
      unfold splitOnChar at h
      injection h with h1 h2
      exact ⟨h1, rfl⟩
    | cons c rest ih =>
      intro h
      unfold splitOnChar at h
      by_cases hc : (c == sep) = true
      · rw [if_pos hc] at h
        injection h with h1 h2
        exact absurd h2 (splitOnChar_ne_nil sep rest)
      · rw [if_neg hc] at h
        cases h2 : splitOnChar sep rest with
        | nil => exact absurd h2 (splitOnChar_ne_nil sep rest)
        | cons s2 ss2 =>
          rw [h2] at h
          injection h with h3 h4
          subst h4
          obtain ⟨hr, hall⟩ := ih s2 h2
          subst hr
          refine ⟨h3, ?_⟩
          rw [List.all_cons, Bool.and_eq_true]
          have hcb : (c != sep) = true := by
            rw [Bool.not_eq_true] at hc
            rw [bne, hc]
            rfl
          exact ⟨hcb, hall⟩
  · rintro ⟨rfl, hall⟩
    induction f with
    | nil => rfl
    | cons c rest ih =>
      rw [List.all_cons, Bool.and_eq_true] at hall
      unfold splitOnChar
      have hc : (c == sep) = false := by
        have := hall.1
        rwa [bne, Bool.not_eq_true'] at this
      rw [if_neg (by rw [hc]; exact Bool.false_ne_true)]
      rw [ih hall.2]

/-- A one-component glob (not `**`) matches exactly the one-component
paths whose component satisfies it. -/
theorem segGlobList_single (pn : Chars) (hpn : (pn == strOf "**") = false)
    (segs : List Chars) :
    segGlobList [pn] segs = true ↔ ∃ s, segs = [s] ∧ globMatch pn s = true := by
  unfold segGlobList
  rw [hpn]
  simp only [Bool.false_eq_true, if_false]
  cases segs with
  | nil => simp
  | cons s rest =>
    unfold segGlobList
    simp only [Bool.and_eq_true]
    constructor
    · rintro ⟨hg, hr⟩
      rw [List.isEmpty_iff] at hr
      exact ⟨s, by rw [hr], hg⟩
    · rintro ⟨s2, heq, hg⟩
      injection heq with h1 h2
      subst h1
      subst h2
      exact ⟨hg, rfl⟩

/-- Joining below the repository root is the name itself. -/
theorem joinParent_nil (name : Chars) : joinParent [] name = name := rfl

/-- Joining below a non-root directory inserts a separator. -/
theorem joinParent_ne_nil (d name : Chars) (hd : d.isEmpty = false) :
    joinParent d name = d ++ '/' :: name := by
  unfold joinParent
  rw [hd]
  rfl

/-- `parent_dir.glob(name)` for a slash-free non-`**` pattern selects
exactly the direct children of the directory whose name satisfies the
glob. -/
theorem globSelect_single_iff (base pn f : Chars) (hpn : (pn == strOf "**") = false) :
    globSelect base [pn] f = true ↔
      ∃ name, f = joinParent base name ∧
        name.all (fun c => c != '/') = true ∧ globMatch pn name = true := by
  unfold globSelect underDir relTo
  cases base with
  | nil =>
    show segGlobList [pn] (splitOnSlash f) = true ↔
      ∃ name, f = joinParent [] name ∧
        name.all (fun c => c != '/') = true ∧ globMatch pn name = true
    rw [segGlobList_single pn hpn]
    unfold splitOnSlash
    constructor
    · rintro ⟨s, hs, hg⟩
      obtain ⟨rfl, hall⟩ := (splitOnChar_single_iff '/' f s).mp hs
      exact ⟨f, (joinParent_nil f).symm, hall, hg⟩
    · rintro ⟨name, hf, hall, hg⟩
      rw [joinParent_nil] at hf
      subst hf
      exact ⟨f, (splitOnChar_single_iff '/' f f).mpr ⟨rfl, hall⟩, hg⟩
  | cons a bs =>
    show (List.isPrefixOf ((a :: bs) ++ ['/']) f &&
        segGlobList [pn] (splitOnSlash (f.drop ((a :: bs).length + 1)))) = true ↔
      ∃ name, f = joinParent (a :: bs) name ∧
        name.all (fun c => c != '/') = true ∧ globMatch pn name = true
    rw [Bool.and_eq_true]
    have hlen : ((a :: bs) ++ ['/']).length = (a :: bs).length + 1 := by simp
    constructor
    · rintro ⟨hp, hg⟩
      obtain ⟨t, ht⟩ := List.isPrefixOf_iff_prefix.mp hp
      have heq : ((a :: bs) ++ ['/']) ++ t = (a :: bs) ++ '/' :: t :=
        List.append_assoc _ _ _
      have hf : f = (a :: bs) ++ '/' :: t := by
        rw [← ht]
        exact heq
      have hdrop : f.drop ((a :: bs).length + 1) = t := by
        rw [← ht, ← hlen, List.drop_left]
      rw [hdrop, segGlobList_single pn hpn] at hg
      obtain ⟨s, hs, hgm⟩ := hg
      obtain ⟨rfl, hall⟩ := (splitOnChar_single_iff '/' t s).mp hs
      refine ⟨t, ?_, hall, hgm⟩
      rw [joinParent_ne_nil (a :: bs) t rfl]
      exact hf
    · rintro ⟨name, hf, hall, hg⟩
      rw [joinParent_ne_nil (a :: bs) name rfl] at hf
      subst hf
      have hassoc : (a :: bs) ++ '/' :: name = ((a :: bs) ++ ['/']) ++ name :=
        (List.append_assoc (a :: bs) ['/'] name).symm
      constructor
      · rw [List.isPrefixOf_iff_prefix]
        exact ⟨name, hassoc.symm⟩
      · rw [hassoc, ← hlen, List.drop_left, segGlobList_single pn hpn]
        exact ⟨name, (splitOnChar_single_iff '/' name name).mpr ⟨rfl, hall⟩, hg⟩

/-- C7 (amended): in the full-tree pass, a rule with `*`/`?` but no `**`
and the recursive flag unset selects exactly the source files residing
directly under the rule's declared directory — at no deeper level — whose
final component satisfies the glob.  (The changed-file matcher does not
enforce this: see the counterexample.) -/
theorem c7_nonrecursive_glob_select (fs : SourceTree) (pc : PatternConfig)
    (e : Chars × Chars)
    (hw : hasWildcard pc.source = true)
    (hss : containsSub (strOf "**") pc.source = false)
    (hr : pc.recursive = false)
    (hd : dirExists fs (pathParent pc.source) = true) :
    e ∈ ruleMatches fs pc [] ↔
      e ∈ fs ∧ ∃ name,
        e.1 = joinParent (pathParent pc.source) name ∧
        name.all (fun c => c != '/') = true ∧
        globMatch (pathName pc.source) name = true := by
  have hss' : ¬ containsSub (strOf "**") pc.source = true := by
    rw [hss]
    exact Bool.false_ne_true
  have hr' : ¬ pc.recursive = true := by
    rw [hr]
    exact Bool.false_ne_true
  unfold ruleMatches
  dsimp only
  rw [if_pos hw, if_neg hss', if_pos hd, if_neg hr']
  rw [List.mem_filter]
  simp only [should_exclude_file, List.any_nil, Bool.not_false, Bool.and_true]
  rw [globSelect_single_iff _ _ _ (pathName_ne_twostar pc.source hss)]

/-- C7 witness: the characterization instantiated at a two-file tree and
the rule `docs/*.md`. -/
theorem c7_nonrecursive_witness :
    (strOf "docs/x.md", strOf "a") ∈
        ruleMatches [(strOf "docs/x.md", strOf "a"), (strOf "docs/sub/y.md", strOf "b")]
          ⟨strOf "docs/*.md", [], false⟩ [] ↔
      (strOf "docs/x.md", strOf "a") ∈
          [(strOf "docs/x.md", strOf "a"), (strOf "docs/sub/y.md", strOf "b")] ∧
        ∃ name,
          strOf "docs/x.md" = joinParent (pathParent (strOf "docs/*.md")) name ∧
          name.all (fun c => c != '/') = true ∧
          globMatch (pathName (strOf "docs/*.md")) name = true :=
  c7_nonrecursive_glob_select
    [(strOf "docs/x.md", strOf "a"), (strOf "docs/sub/y.md", strOf "b")]
    ⟨strOf "docs/*.md", [], false⟩ (strOf "docs/x.md", strOf "a")
    (by decide) (by decide) (by decide) (by decide)

/-- The rendered wrapper is never byte-identical to the original text. -/
theorem write_yaml_markdown_ne (t r c : Chars) : write_yaml_markdown t r c ≠ c := by
  intro h
  have hl := congrArg List.length h
  simp only [write_yaml_markdown, List.length_append] at hl
  have h1 : (strOf "# ").length = 2 := by decide
  have h2 : (strOf "\n\nSource: `").length = 11 := by decide
  have h3 : (strOf "`\n\n```yaml\n").length = 11 := by decide
  have h4 : (strOf "\n```\n").length = 5 := by decide
  rw [h1, h2, h3, h4] at hl
  omega

/-- The writes of a single-rule pattern pass. -/
theorem copyPatternWrites_single (fs : SourceTree) (pc : PatternConfig)
    (excl : List Chars) :
    copyPatternWrites fs [pc] excl =
      (ruleMatches fs pc excl).map (fun e => mkWrite e (destFor fs pc e.1)) := by
  unfold copyPatternWrites
  rw [List.map_cons, List.map_nil, List.flatten_cons, List.flatten_nil, List.append_nil]

/-- C1 (amended): for a rule whose destination ends in a path separator or
is empty and whose source neither ends in a separator nor names an existing
directory (every glob rule in particular), `copy_files_by_pattern` writes
each matched file to the destination directory joined with only the file's
base name — subdirectory structure is not preserved — with `.md` appended
for rendered YAML files. -/
theorem c1_dest_joins_basename (fs : SourceTree) (pc : PatternConfig)
    (excl : List Chars) (w : Write)
    (hdir : endsWithSlash pc.destination = true ∨ pc.destination = [])
    (hs : endsWithSlash pc.source = false)
    (hnd : dirIn fs pc.source = false)
    (hw : w ∈ copyPatternWrites fs [pc] excl) :
    (is_yaml_file w.src = false → w.dest = joinPath pc.destination (pathName w.src)) ∧
    (is_yaml_file w.src = true →
      w.dest = joinPath pc.destination (pathName w.src) ++ strOf ".md") := by
  rw [copyPatternWrites_single, List.mem_map] at hw
  obtain ⟨e, he, hmk⟩ := hw
  have hdest : destFor fs pc e.1 = joinPath pc.destination (pathName e.1) := by
    unfold destFor
    have h1 : (endsWithSlash pc.destination || pc.destination.isEmpty) = true := by
      rcases hdir with h | h
      · rw [h]
        rfl
      · rw [h]
        rw [Bool.or_comm]
        rfl
    have h2 : (endsWithSlash pc.source || dirIn fs pc.source) = false := by
      rw [hs, hnd]
      rfl
    rw [if_pos h1, if_neg (by rw [h2]; exact Bool.false_ne_true)]
  subst hmk
  unfold mkWrite
  by_cases hy : is_yaml_file e.1 = true
  · rw [if_pos hy]
    dsimp only
    constructor
    · intro hn
      rw [hy] at hn
      cases hn
    · intro _
      rw [hdest]
  · rw [if_neg hy]
    dsimp only
    rw [Bool.not_eq_true] at hy
    constructor
    · intro _
      rw [hdest]
    · intro ht
      rw [hy] at ht
      cases ht

/-- C4: every write `copy_files_by_pattern` makes from a `.yml`/`.yaml`
source (case-insensitive) goes to the computed destination with an
additional `.md` extension appended, and its entire content is the fixed
three-part wrapper template — title line naming the file, citation line
with the literal repository-relative source path, and the original text in
a `yaml` fenced block — never the source bytes themselves. -/
theorem c4_yaml_wrapped_not_copied (fs : SourceTree) (pc : PatternConfig)
    (excl : List Chars) (w : Write)
    (hw : w ∈ copyPatternWrites fs [pc] excl)
    (hy : is_yaml_file w.src = true) :
    ∃ c, (w.src, c) ∈ fs ∧
      w.dest = destFor fs pc w.src ++ strOf ".md" ∧
      w.content = write_yaml_markdown (pathName w.src) w.src c ∧
      w.content ≠ c := by
  rw [copyPatternWrites_single, List.mem_map] at hw
  obtain ⟨e, he, hmk⟩ := hw
  have hsrc : w.src = e.1 := by
    rw [← hmk, mkWrite_src]
  rw [hsrc] at hy ⊢
  subst hmk
  unfold mkWrite
  rw [if_pos hy]
  dsimp only
  refine ⟨e.2, ?_, rfl, rfl, write_yaml_markdown_ne _ _ _⟩
  have := ruleMatches_mem_fs fs pc excl e he
  simpa using this

/-- C1 counterexample: the spec's example rule
`{source: "docs/**/*.md", destination: "guides/"}` on a tree with
`docs/a/b.md` and `docs/readme.txt` writes `guides/b.md` (count 1), not
`guides/a/b.md`: the relative path is not preserved. -/
theorem c1_structure_not_preserved_cex :
    (copyPatternWrites
        [(strOf "docs/a/b.md", strOf "hello"), (strOf "docs/readme.txt", strOf "r")]
        [⟨strOf "docs/**/*.md", strOf "guides/", false⟩] []).map Write.dest =
      [strOf "guides/b.md"] ∧
    copy_files_by_pattern
        [(strOf "docs/a/b.md", strOf "hello"), (strOf "docs/readme.txt", strOf "r")]
        [⟨strOf "docs/**/*.md", strOf "guides/", false⟩] [] = 1 ∧
    strOf "guides/a/b.md" ∉
      (copyPatternWrites
        [(strOf "docs/a/b.md", strOf "hello"), (strOf "docs/readme.txt", strOf "r")]
        [⟨strOf "docs/**/*.md", strOf "guides/", false⟩] []).map Write.dest := by
  decide

/-- C7 counterexample: the changed-file matcher accepts `docs/a/b.md` for
the non-recursive rule `docs/*.md` even though the candidate resides two
levels below the declared directory: `fnmatch`'s `*` crosses path
separators. -/
theorem c7_deep_match_cex :
    match_file_to_pattern (strOf "docs/a/b.md") (strOf "docs/*.md") [] = true ∧
    pathParent (strOf "docs/a/b.md") ≠ pathParent (strOf "docs/*.md") := by
  decide

/-- C1 witness: the amended destination rule instantiated at the spec's
example. -/
theorem c1_dest_joins_basename_witness :
    (is_yaml_file (strOf "docs/a/b.md") = false →
      strOf "guides/b.md" = joinPath (strOf "guides/") (pathName (strOf "docs/a/b.md"))) ∧
    (is_yaml_file (strOf "docs/a/b.md") = true →
      strOf "guides/b.md" =
        joinPath (strOf "guides/") (pathName (strOf "docs/a/b.md")) ++ strOf ".md") :=
  c1_dest_joins_basename
    [(strOf "docs/a/b.md", strOf "hello"), (strOf "docs/readme.txt", strOf "r")]
    ⟨strOf "docs/**/*.md", strOf "guides/", false⟩ []
    ⟨strOf "docs/a/b.md", strOf "guides/b.md", strOf "hello"⟩
    (Or.inl (by decide)) (by decide) (by decide) (by decide)

/-- C4 witness: the wrapper write for `events/order.yaml` under
destination `guides/`. -/
theorem c4_yaml_wrapped_witness :
    ∃ c, (strOf "events/order.yaml", c) ∈ [(strOf "events/order.yaml", strOf "k: v")] ∧
      strOf "guides/order.yaml.md" =
        destFor [(strOf "events/order.yaml", strOf "k: v")]
          ⟨strOf "events/order.yaml", strOf "guides/", false⟩
          (strOf "events/order.yaml") ++ strOf ".md" ∧
      write_yaml_markdown (strOf "order.yaml") (strOf "events/order.yaml") (strOf "k: v") =
        write_yaml_markdown (pathName (strOf "events/order.yaml"))
          (strOf "events/order.yaml") c ∧
      write_yaml_markdown (strOf "order.yaml") (strOf "events/order.yaml") (strOf "k: v") ≠ c :=
  c4_yaml_wrapped_not_copied [(strOf "events/order.yaml", strOf "k: v")]
    ⟨strOf "events/order.yaml", strOf "guides/", false⟩ []
    ⟨strOf "events/order.yaml", strOf "guides/order.yaml.md",
      write_yaml_markdown (strOf "order.yaml") (strOf "events/order.yaml") (strOf "k: v")⟩
    (by decide) (by decide)
